import Mathlib

/-!
# Verification of the antenna-comparison toolkit

A shallow embedding, in Lean 4, of the core functions of the
`ak6mj-hf-propagation` repository, together with theorems settling the
specification claims about them.

Embedded components:
* `lib/pskreporter.py` — `fetch_spots` retry/backoff control flow;
* `lib/geo_utils.py` — `grid_to_latlon`;
* `tools/antenna.py` — `bearing_to_sector`, `parse_all_txt_line`,
  `get_session_status`, `get_session_intervals`, the command-level
  transition validation (`cmd_start`/`cmd_stop`/`cmd_pause`/`cmd_resume`),
  and the analysis fragments of `cmd_analyze` (baseline-antenna selection,
  per-band RX comparison, TX reach fallback, final recommendation).

Modelling conventions: Python floats on the paths verified here carry exact
decimal/half/quarter values, so real arithmetic is modelled with `ℚ`;
timestamps are modelled as integer seconds (`Nat`), faithful to the
chronological ordering of ISO strings of a uniform format; Python dicts that
are only iterated in insertion order are modelled as association lists in
insertion order.
-/

namespace AntennaProof

/-! ## External spot client (`lib/pskreporter.py`, `fetch_spots`)

`fetch_spots` runs `for attempt in range(3)`, where each attempt either
succeeds (HTTP fetch + XML parse), fails with an `HTTPError` carrying a
status code, or fails with some other exception.  We model one attempt's
outcome as `Attempt`, and the whole call as a function of the sequence of
outcomes, returning the final result together with the list of
`time.sleep` durations executed (in order). -/

/-- Outcome of a single attempt inside the `fetch_spots` retry loop. -/
inductive Attempt (α : Type) where
  | ok (spots : List α)
  | httpError (code : Nat)
  | exn
deriving DecidableEq

/-- How a `fetch_spots` call terminates: a returned list, or a raised
`HTTPError` with the given status code (the only exception that can
escape the loop: the generic handler never re-raises). -/
inductive FetchResult (α : Type) where
  | success (spots : List α)
  | raised (code : Nat)
deriving DecidableEq

/-- The `for attempt in range(3)` loop of `fetch_spots`, at iteration `i`
with `rem` iterations remaining (`rem = 3 - i`); `attempt < 2` in the
source is `0 < rem - 1`, i.e. `0 < rem'` in the successor case.
On `HTTPError` with code 429 and a retry left it sleeps `2 ** attempt`;
on code ≠ 429 it re-raises at once; on a non-HTTP exception with a retry
left it sleeps `1`, otherwise it returns `[]`. -/
def fetchLoop {α : Type} (o : Nat → Attempt α) : Nat → Nat → FetchResult α × List Nat
  | _, 0 => (.success [], [])
  | i, rem + 1 =>
    match o i with
    | .ok s => (.success s, [])
    | .httpError c =>
      if c = 429 ∧ 0 < rem then
        let p := fetchLoop o (i + 1) rem
        (p.1, 2 ^ i :: p.2)
      else (.raised c, [])
    | .exn =>
      if 0 < rem then
        let p := fetchLoop o (i + 1) rem
        (p.1, 1 :: p.2)
      else (.success [], [])

/-- `fetch_spots` as a function of the attempt outcomes. -/
def fetch_spots {α : Type} (o : Nat → Attempt α) : FetchResult α × List Nat :=
  fetchLoop o 0 3

/-! ## Geodesy (`lib/geo_utils.py` and `bearing_to_sector` in `tools/antenna.py`) -/

/-- Python's built-in `round` on an exact value: round half to even. -/
def pyRound (q : ℚ) : ℤ :=
  if q - ⌊q⌋ < 1 / 2 then ⌊q⌋
  else if 1 / 2 < q - ⌊q⌋ then ⌊q⌋ + 1
  else if ⌊q⌋ % 2 = 0 then ⌊q⌋ else ⌊q⌋ + 1

/-- The `sectors` list of `cmd_analyze`/`cmd_tod`. -/
def sectors : List String := ["N", "NE", "E", "SE", "S", "SW", "W", "NW"]

/-- `bearing_to_sector` from `tools/antenna.py`:
`idx = round(bearing / 45) % 8; return sectors[idx]`.
Python's `%` on ints agrees with `Int.emod` for a positive modulus, so the
index is always in `[0, 8)` and the `getD` default is never used. -/
def bearing_to_sector (bearing : ℚ) : String :=
  sectors.getD (pyRound (bearing / 45) % 8).toNat "N"

/-- Leading- and trailing-whitespace removal, Python `str.strip()`. -/
def pyStrip (l : List Char) : List Char :=
  ((l.dropWhile Char.isWhitespace).reverse.dropWhile Char.isWhitespace).reverse

/-- The body of `grid_to_latlon` after `grid = grid.upper().strip()`:
field arithmetic on the code points of the first four (and optionally
fifth and sixth) characters.  No character-range validation occurs; the
`try`/`except` of the source cannot fire for length ≥ 4 (all index and
`ord` operations are total there), which the totality of this match makes
explicit. -/
def gridDecode : List Char → Option (ℚ × ℚ)
  | c0 :: c1 :: c2 :: c3 :: rest =>
    let lon : ℚ := ((c0.toNat : ℚ) - 65) * 20 - 180 + ((c2.toNat : ℚ) - 48) * 2
    let lat : ℚ := ((c1.toNat : ℚ) - 65) * 10 - 90 + ((c3.toNat : ℚ) - 48) * 1
    match rest with
    | c4 :: c5 :: _ =>
      some (lat + ((c5.toUpper.toNat : ℚ) - 65) * (1 / 24) + 1 / 48,
            lon + ((c4.toUpper.toNat : ℚ) - 65) * (2 / 24) + 1 / 24)
    | _ => some (lat + 1 / 2, lon + 1)
  | _ => none

/-- `grid_to_latlon` from `lib/geo_utils.py` (returns `(lat, lon)`). -/
def grid_to_latlon (s : String) : Option (ℚ × ℚ) :=
  gridDecode (pyStrip (s.toList.map Char.toUpper))

/-! ## Decode log parser (`parse_all_txt_line` in `tools/antenna.py`)

The line regex
`(\d{6}_\d{6})\s+(\d+\.\d+)\s+(Rx|Tx)\s+(\w+)\s+(-?\d+)\s+(-?\d+\.\d+)\s+(\d+)\s+(.+)`
and the `strptime` of the timestamp group are mechanical; we model a line
from the point where those eight groups have matched and parsed, as a
`RawLine` whose `message` is already split on whitespace
(`message.split()`).  The token classifiers below implement the inner
regexes character by character. -/

/-- Character class `[0-9]`. -/
def isDigitCh (c : Char) : Bool := '0' ≤ c && c ≤ '9'

/-- Character class `[A-R]` under `re.IGNORECASE`. -/
def isAR (c : Char) : Bool := 'A' ≤ c.toUpper && c.toUpper ≤ 'R'

/-- Character class `[A-X]` under `re.IGNORECASE`. -/
def isAX (c : Char) : Bool := 'A' ≤ c.toUpper && c.toUpper ≤ 'X'

/-- Character class `[A-Z0-9]` under `re.IGNORECASE`. -/
def isAlnumCh (c : Char) : Bool :=
  isDigitCh c || ('A' ≤ c.toUpper && c.toUpper ≤ 'Z')

/-- The grid regex `^[A-R]{2}[0-9]{2}([A-X]{2})?$` (with `re.I`). -/
def isGridToken (s : String) : Bool :=
  match s.toList with
  | [a, b, c, d] => isAR a && isAR b && isDigitCh c && isDigitCh d
  | [a, b, c, d, e, f] =>
    isAR a && isAR b && isDigitCh c && isDigitCh d && isAX e && isAX f
  | _ => false

/-- The grid-shape prefix regex `^[A-R]{2}[0-9]{2}` (with `re.I`; not
anchored at the end) used to skip grid-like tokens in the callsign scan. -/
def isGridPrefix (s : String) : Bool :=
  match s.toList with
  | a :: b :: c :: d :: _ => isAR a && isAR b && isDigitCh c && isDigitCh d
  | _ => false

/-- `[+-]?\d+` anchored on both sides, over a character list. -/
def intTokenChars : List Char → Bool
  | [] => false
  | c :: rest =>
    if c = '+' || c = '-' then !rest.isEmpty && rest.all isDigitCh
    else (c :: rest).all isDigitCh

/-- The signal-report regex `^[+-]?\d+$`. -/
def isIntToken (s : String) : Bool := intTokenChars s.toList

/-- The acknowledgment-report regex `^R[+-]?\d+$` (with `re.I`). -/
def isRReport (s : String) : Bool :=
  match s.toList with
  | c :: rest => (c = 'R' || c = 'r') && intTokenChars rest
  | [] => false

/-- The main part `[A-Z0-9]{1,3}[0-9][A-Z0-9]{0,4}` of the callsign regex
(anchored on both sides); the existential over the `{1,3}` width models
regex backtracking. -/
def callsignMain (l : List Char) : Bool :=
  [1, 2, 3].any fun k =>
    decide ((l.take k).length = k) && (l.take k).all isAlnumCh &&
      match l.drop k with
      | d :: suf => isDigitCh d && suf.all isAlnumCh && decide (suf.length ≤ 4)
      | [] => false

/-- Split a character list on a separator (like Python `str.split(sep)`:
`n` separators yield `n + 1` pieces). -/
def splitOnCh (sep : Char) : List Char → List (List Char)
  | [] => [[]]
  | c :: rest =>
    let r := splitOnCh sep rest
    if c = sep then [] :: r
    else
      match r with
      | h :: t => (c :: h) :: t
      | [] => [[c]]

/-- The callsign regex `^[A-Z0-9]{1,3}[0-9][A-Z0-9]{0,4}(/[A-Z0-9]+)?$`
(with `re.I`); since `/` cannot occur inside either character class, the
string matches iff it has at most one `/` and the pieces match. -/
def isCallsignToken (s : String) : Bool :=
  match splitOnCh '/' s.toList with
  | [m] => callsignMain m
  | [m, suf] => callsignMain m && !suf.isEmpty && suf.all isAlnumCh
  | _ => false

/-- Python `str.upper()` via the character list. -/
def pyUpper (s : String) : String := ⟨s.toList.map Char.toUpper⟩

/-- Keywords skipped outright in the callsign scan. -/
def skipWords : List String := ["CQ", "DE", "QRZ", "POTA", "SOTA"]

/-- Acknowledgment keywords skipped in the callsign scan. -/
def ackWords : List String := ["RRR", "RR73", "73"]

/-- The callsign-extraction loop of `parse_all_txt_line`: the first token
surviving all skip filters and matching the callsign shape is taken
(upper-cased) and the loop breaks; a token matching no filter and not the
callsign shape is passed over. -/
def extractCallsign : List String → Option String
  | [] => none
  | p :: rest =>
    if skipWords.contains (pyUpper p) then extractCallsign rest
    else if isGridPrefix p then extractCallsign rest
    else if isIntToken p then extractCallsign rest
    else if isRReport p then extractCallsign rest
    else if ackWords.contains (pyUpper p) then extractCallsign rest
    else if isCallsignToken p then some (pyUpper p)
    else extractCallsign rest

/-- The grid-extraction loop of `parse_all_txt_line`: it assigns
`grid = part.upper()` on every match and never breaks, so a later match
overwrites an earlier one. -/
def extractGrid (parts : List String) : Option String :=
  parts.foldl (fun acc p => if isGridToken p then some (pyUpper p) else acc) none

/-- The band table of `lib/band_utils.py` (name, low MHz, high MHz), in
source order. -/
def BANDS : List (String × ℚ × ℚ) :=
  [("160m", 1.8, 2), ("80m", 3.5, 4), ("60m", 5.3, 5.4), ("40m", 7, 7.3),
   ("30m", 10.1, 10.15), ("20m", 14, 14.35), ("17m", 18.068, 18.168),
   ("15m", 21, 21.45), ("12m", 24.89, 24.99), ("10m", 28, 29.7),
   ("6m", 50, 54), ("2m", 144, 148)]

/-- `freq_to_band` from `lib/band_utils.py`: first band whose inclusive
range contains the frequency.  The out-of-band fallback label
(`f"{freq_mhz:.3f}MHz"` in the source) is abstracted to a constant tag:
no claim verified here touches an out-of-band frequency. -/
def freq_to_band (f : ℚ) : String :=
  match BANDS.find? (fun b => b.2.1 ≤ f && f ≤ b.2.2) with
  | some b => b.1
  | none => "MHz"

/-- The eight matched and parsed groups of the `parse_all_txt_line` line
regex, with `message` already whitespace-split. -/
structure RawLine where
  ts : Nat
  freq : ℚ
  direction : String
  mode : String
  snr : ℤ
  dt : ℚ
  audioFreq : Nat
  message : List String
deriving DecidableEq

/-- The record dict returned by `parse_all_txt_line`. -/
structure DecodeRecord where
  timestamp : Nat
  freq_mhz : ℚ
  band : String
  snr : ℤ
  callsign : String
  grid : Option String
  message : List String
deriving DecidableEq

/-- `parse_all_txt_line` from `tools/antenna.py`, from the point where the
line regex and timestamp have matched: non-`Rx` or non-`FT8` lines and
lines with no resolvable callsign yield `None`. -/
def parse_all_txt_line (r : RawLine) : Option DecodeRecord :=
  if r.direction ≠ "Rx" ∨ r.mode ≠ "FT8" then none
  else
    match extractCallsign r.message with
    | none => none
    | some call =>
      some ⟨r.ts, r.freq, freq_to_band r.freq, r.snr, call, extractGrid r.message, r.message⟩

/-! ## Session event log (`tools/antenna.py`)

Events are stored as dicts in `antenna_log.json`; each carries an ISO
timestamp.  Timestamps are modelled as integer seconds: the source
compares ISO strings of a uniform format, which is the same order. -/

/-- A session event. -/
inductive Event where
  | start (ts : Nat) (name : Option String) (solar : Option String)
  | stop (ts : Nat)
  | pause (ts : Nat)
  | resume (ts : Nat)
  | use (ts : Nat) (antenna : String) (band : Option String) (desc : String)
  | note (ts : Nat) (text : String)
deriving DecidableEq

/-- Timestamp of an event. -/
def Event.ts : Event → Nat
  | .start t _ _ => t
  | .stop t => t
  | .pause t => t
  | .resume t => t
  | .use t _ _ _ => t
  | .note t _ => t

/-- The dict built by `get_session_status` (the `events` key, which just
echoes the input log, is omitted). -/
structure SessionStatus where
  active : Bool
  paused : Bool
  startTime : Option Nat
  name : Option String
  notes : List String
  currentAntenna : Option String
  currentAntennaSince : Option Nat
  currentAntennaDescription : Option String
  solar : Option String
  elapsedSeconds : ℤ
  antennaElapsedSeconds : ℤ
deriving DecidableEq

/-- The initial status dict of `get_session_status`. -/
def statusInit : SessionStatus :=
  ⟨false, false, none, none, [], none, none, none, none, 0, 0⟩

/-- One iteration of the replay loop in `get_session_status`. -/
def statusStep (st : SessionStatus) (e : Event) : SessionStatus :=
  match e with
  | .start t n so =>
    { st with active := true, paused := false, startTime := some t,
              solar := so, name := n, currentAntenna := none }
  | .note _ txt => { st with notes := st.notes ++ [txt] }
  | .stop _ => { st with active := false, currentAntenna := none }
  | .pause _ => { st with paused := true }
  | .resume _ => { st with paused := false }
  | .use t a _ d =>
    { st with currentAntenna := some a, currentAntennaSince := some t,
              currentAntennaDescription := some d }

/-- `get_session_status` from `tools/antenna.py`: replay the log, then
fill in the two elapsed-time fields from the wall clock `now` (passed
explicitly here). -/
def get_session_status (log : List Event) (now : Nat) : SessionStatus :=
  let st := log.foldl statusStep statusInit
  let st :=
    match st.startTime with
    | some t0 => { st with elapsedSeconds := (now : ℤ) - t0 }
    | none => st
  match st.currentAntennaSince with
  | some t1 => { st with antennaElapsedSeconds := (now : ℤ) - t1 }
  | none => st

/-- A derived interval dict (`antenna`, `start`, `end`, optional `band`). -/
structure IntervalRec where
  antenna : String
  startTime : Nat
  endTime : Nat
  band : Option String
deriving DecidableEq

/-- Replay state of `get_session_intervals`. -/
structure GsiState where
  intervals : List IntervalRec
  sessionStart : Option Nat
  currentAntenna : Option String
  currentStart : Option Nat
  currentBand : Option String
deriving DecidableEq

/-- Initial replay state of `get_session_intervals`. -/
def gsiInit : GsiState := ⟨[], none, none, none, none⟩

/-- `if current_antenna and current_start:` — close the open interval at
time `t`.  A `None` *or empty* antenna label is falsy in Python, hence
the `a ≠ ""` guard; `current_start`, a datetime, is truthy whenever set. -/
def closeOpen (s : GsiState) (t : Nat) : List IntervalRec :=
  match s.currentAntenna, s.currentStart with
  | some a, some cs =>
    if a ≠ "" then s.intervals ++ [⟨a, cs, t, s.currentBand⟩] else s.intervals
  | _, _ => s.intervals

/-- One iteration of the replay loop in `get_session_intervals`.  `stop`
and `pause` clear `current_antenna` but leave `current_start` in place,
exactly as the source does; `note` and unknown events fall through. -/
def gsiStep (s : GsiState) (e : Event) : GsiState :=
  match e with
  | .start t _ _ => { s with sessionStart := some t, currentAntenna := none }
  | .stop t =>
    { s with intervals := closeOpen s t, currentAntenna := none, sessionStart := none }
  | .pause t => { s with intervals := closeOpen s t, currentAntenna := none }
  | .resume _ => s
  | .use t a b _ =>
    { s with intervals := closeOpen s t, currentAntenna := some a,
             currentStart := some t, currentBand := b }
  | .note _ _ => s

/-- The trailing `if current_antenna and current_start and session_start:`
of `get_session_intervals`, closing a still-open interval at `now`. -/
def gsiFinal (s : GsiState) (now : Nat) : List IntervalRec :=
  match s.currentAntenna, s.currentStart, s.sessionStart with
  | some a, some cs, some _ =>
    if a ≠ "" then s.intervals ++ [⟨a, cs, now, s.currentBand⟩] else s.intervals
  | _, _, _ => s.intervals

/-- `get_session_intervals` from `tools/antenna.py`, with the wall clock
`now` passed explicitly. -/
def get_session_intervals (log : List Event) (now : Nat) : List IntervalRec :=
  gsiFinal (log.foldl gsiStep gsiInit) now

/-- Whether the replay ends with an open interval, i.e. the condition
under which `get_session_intervals` appends the `end = now` interval
(the session is still running with an antenna in use). -/
def sessionOpen (log : List Event) : Bool :=
  match (log.foldl gsiStep gsiInit).currentAntenna,
      (log.foldl gsiStep gsiInit).currentStart,
      (log.foldl gsiStep gsiInit).sessionStart with
  | some a, some _, some _ => decide (a ≠ "")
  | _, _, _ => false

/-- One iteration of the `session_active`/`session_paused` replay loop
shared by `cmd_pause`, `cmd_resume` and `cmd_use`: `start` sets active
and clears paused, `stop` clears active, `pause` and `resume` toggle
paused. -/
def dsStep (st : Bool × Bool) (e : Event) : Bool × Bool :=
  match e with
  | .start _ _ _ => (true, false)
  | .stop _ => (false, st.2)
  | .pause _ => (st.1, true)
  | .resume _ => (st.1, false)
  | _ => st

/-- The `(session_active, session_paused)` state derived by replaying the
log. -/
def derivedState (log : List Event) : Bool × Bool :=
  log.foldl dsStep (false, false)

/-- One iteration of the `session_active` loop of `cmd_stop`, which only
inspects `start` and `stop` events. -/
def stopStep (a : Bool) (e : Event) : Bool :=
  match e with
  | .start _ _ _ => true
  | .stop _ => false
  | _ => a

/-- The `session_active` flag as `cmd_stop` computes it. -/
def stopActive (log : List Event) : Bool :=
  log.foldl stopStep false

/-- Event-kind test used by `cmd_start`. -/
def Event.isStart : Event → Bool
  | .start _ _ _ => true
  | _ => false

/-- Event-kind test used by `cmd_start`. -/
def Event.isStop : Event → Bool
  | .stop _ => true
  | _ => false

/-- The active-session test of `cmd_start`: it rejects when some `start`
entry has no `stop` entry with a strictly later timestamp. -/
def startBlocked (log : List Event) : Bool :=
  log.any fun e => e.isStart && !(log.any fun f => f.isStop && decide (e.ts < f.ts))

/-- The four session-transition commands. -/
inductive Cmd where
  | start
  | stop
  | pause
  | resume
deriving DecidableEq

/-- `cmd_start`/`cmd_stop`/`cmd_pause`/`cmd_resume` at the log level:
each validates against state derived from the persisted log and either
exits without touching it (`none`, modelling the `sys.exit(1)` before
any append) or appends exactly one event and saves (`some newLog`);
`now` is the appended event's timestamp. -/
def runCmd (c : Cmd) (log : List Event) (now : Nat) : Option (List Event) :=
  match c with
  | .start =>
    if startBlocked log then none else some (log ++ [.start now none none])
  | .stop =>
    if stopActive log then some (log ++ [.stop now]) else none
  | .pause =>
    let st := derivedState log
    if !st.1 then none
    else if st.2 then none
    else some (log ++ [.pause now])
  | .resume =>
    let st := derivedState log
    if !st.1 then none
    else if !st.2 then none
    else some (log ++ [.resume now])

/-- The transitions the specification forbids, phrased on the state
derived by replaying the log: `start` while Running or Paused; `stop`,
`pause` or `resume` while Inactive; `pause` while already Paused;
`resume` while not Paused. -/
def forbids (c : Cmd) (log : List Event) : Bool :=
  let st := derivedState log
  match c with
  | .start => st.1
  | .stop => !st.1
  | .pause => !st.1 || st.2
  | .resume => !st.1 || !st.2

/-! ## Analysis fragments of `cmd_analyze` (`tools/antenna.py`)

`cmd_analyze` scans ALL.TXT in file order, assigns each parsed record to
the first interval containing its timestamp, and accumulates
`antenna_data[antenna][band][callsign].append(snr)` into nested dicts
whose keys keep insertion order.  `all_antennas = list(antenna_data.keys())`
is therefore the antennas in order of first matched record, and
`baseline_ant = all_antennas[0]`. -/

/-- The record-to-interval join: the first interval (in list order) with
`interval["start"] <= ts < interval["end"]`. -/
def assignAntenna (intervals : List IntervalRec) (ts : Nat) : Option String :=
  (intervals.find? fun iv => iv.startTime ≤ ts && ts < iv.endTime).map IntervalRec.antenna

/-- One scanned record: `antenna_data[antenna]` gets the key on its first
matched record (only the record's timestamp affects key order). -/
def antennaStep (intervals : List IntervalRec) (acc : List String) (ts : Nat) : List String :=
  match assignAntenna intervals ts with
  | some a => if acc.contains a then acc else acc ++ [a]
  | none => acc

/-- `list(antenna_data.keys())` after scanning records with timestamps
`tss` in file order. -/
def antennaOrder (intervals : List IntervalRec) (tss : List Nat) : List String :=
  tss.foldl (antennaStep intervals) []

/-- `baseline_ant = all_antennas[0]`. -/
def baseline_ant (intervals : List IntervalRec) (tss : List Nat) : Option String :=
  (antennaOrder intervals tss).head?

/-- The antenna of the earliest-starting interval (first on ties).
Modelled from the spec's words — "the antenna associated with the
earliest-starting interval" — for comparison with `baseline_ant`. -/
def earliestIntervalAntenna (intervals : List IntervalRec) : Option String :=
  match intervals with
  | [] => none
  | iv :: rest =>
    some (rest.foldl (fun best i => if i.startTime < best.startTime then i else best) iv).antenna

/-- `common_calls = set.intersection(*calls_by_antenna.values())` on a
band's data, listed per antenna in `all_antennas` order as
`(callsign, SNR samples)` pairs: the callsigns of the first antenna that
every other antenna also heard (dict keys are unique within an antenna,
so the length of this list is the intersection cardinality). -/
def commonCalls (data : List (String × List (String × List ℤ))) : List String :=
  match data with
  | [] => []
  | a :: rest =>
    (a.2.map Prod.fst).filter fun c => rest.all fun b => (b.2.map Prod.fst).contains c

/-- Outcome of the per-band RX comparison block of `cmd_analyze`. -/
inductive RxBandOutcome where
  | noCommon
  | compared (commonCount : Nat) (antAvg : List (String × ℚ))
deriving DecidableEq

/-- `antenna_data[ant][band][call]` (SNR samples of one antenna's dict
for a callsign; `[]` when absent). -/
def snrsFor (d : List (String × List ℤ)) (c : String) : List ℤ :=
  ((d.find? fun kv => kv.1 == c).map Prod.snd).getD []

/-- The per-band RX comparison of `cmd_analyze`: with no common
callsigns the band reports "No common callsigns to compare" and is
skipped (`continue`) — there is no reach fallback on the RX side;
otherwise each antenna's mean SNR over exactly the common callsigns'
samples is computed (antennas with no samples are omitted from
`ant_avg`, as in the source). -/
def rxBandCompare (data : List (String × List (String × List ℤ))) : RxBandOutcome :=
  let common := commonCalls data
  if common.isEmpty then .noCommon
  else
    .compared common.length
      (data.filterMap fun a =>
        let snrs := (common.map (snrsFor a.2)).flatten
        if snrs.isEmpty then none
        else some (a.1, ((snrs.sum : ℤ) : ℚ) / snrs.length))

/-- TX summary verdicts of `cmd_analyze` (candidate antenna vs the
baseline antenna). -/
inductive TxVerdict where
  | antBetter
  | baseBetter
  | similar
  | reachAnt
  | reachBase
  | reachSimilar
deriving DecidableEq

/-- The TX part of the per-band summary verdict in `cmd_analyze`
(`tx_delta` is `None` exactly when the band had no common TX stations):
with common stations, ±1 dB thresholds on the SNR delta; otherwise, if
either reach is positive, the reach fallback with proportional threshold
`pct_diff = abs(tx_reach_delta) / max(tx_reach, baseline_tx_reach, 1) > 0.2`;
with both reaches zero, no TX verdict at all.  The same reach rule
grants the TX wins counted for the recommendation. -/
def txSummaryVerdict (txDelta : Option ℚ) (txReach baseReach : Nat)
    (txReachDelta : ℤ) : Option TxVerdict :=
  match txDelta with
  | some d =>
    if 1 < d then some .antBetter
    else if d < -1 then some .baseBetter
    else some .similar
  | none =>
    if 0 < txReach ∨ 0 < baseReach then
      let maxReach : ℚ := max (max (txReach : ℚ) (baseReach : ℚ)) 1
      let pct : ℚ := |(txReachDelta : ℚ)| / maxReach
      if 0 < txReachDelta ∧ 1 / 5 < pct then some .reachAnt
      else if txReachDelta < 0 ∧ 1 / 5 < pct then some .reachBase
      else some .reachSimilar
    else none

/-- The RECOMMENDATION block of `cmd_analyze`: per antenna, in
`all_antennas` order, the `(label, RX wins, TX wins)` tallies;
`total_wins` sums the two and `max(total_wins, key=total_wins.get)`
keeps the earliest key on ties (replacement only on strict increase). -/
def bestTotal (l : List (String × Nat × Nat)) : Option (String × Nat) :=
  match l with
  | [] => none
  | e :: rest =>
    some (rest.foldl (fun best x =>
      if best.2 < x.2.1 + x.2.2 then (x.1, x.2.1 + x.2.2) else best)
      (e.1, e.2.1 + e.2.2))

/-- The printed recommendation: `some antenna`, or `none` for the
"Results too close to call; consider more testing" branch (taken only
when the best total is 0). -/
def recommendation (l : List (String × Nat × Nat)) : Option String :=
  match bestTotal l with
  | some (a, t) => if 0 < t then some a else none
  | none => none

/-- Largest win total, 0 for an empty list — spec-side definition. -/
def maxTotal (l : List (String × Nat × Nat)) : Nat :=
  (l.map fun x => x.2.1 + x.2.2).foldr Nat.max 0

/-- First antenna attaining `maxTotal` — spec-side definition. -/
def firstMaxAntenna (l : List (String × Nat × Nat)) : Option String :=
  (l.find? fun x => x.2.1 + x.2.2 == maxTotal l).map Prod.fst

/-! ## Theorems for C1 (retry/backoff of `fetch_spots`) -/

/-- C1, counterexample: three consecutive HTTP 429 responses make
`fetch_spots` sleep 1 s and 2 s (not 1 s, 2 s, 4 s) and then *raise* the
`HTTPError` to the caller — the `raise` under the 429 branch fires once
`attempt < 2` fails — rather than returning an empty list.  This refutes
the claim that the 429 path never raises. -/
theorem C1_counterexample :
    fetch_spots (fun _ => Attempt.httpError 429 : Nat → Attempt Unit)
        = (FetchResult.raised 429, [1, 2]) ∧
    (FetchResult.raised 429 : FetchResult Unit) ≠ FetchResult.success [] := by
  exact ⟨rfl, by decide⟩

/-- C1 (amended): when all three attempts hit HTTP 429, `fetch_spots`
sleeps with strictly increasing backoff (1 s then 2 s between the three
attempts) and then raises the 429 `HTTPError` to the caller; when all
three attempts fail with a non-HTTP transient error, it sleeps 1 s twice
and returns an empty list without raising. -/
theorem C1_fetch_spots_retry (o oe : Nat → Attempt Unit)
    (h429 : ∀ i, i < 3 → o i = Attempt.httpError 429)
    (hexn : ∀ i, i < 3 → oe i = Attempt.exn) :
    fetch_spots o = (FetchResult.raised 429, [1, 2]) ∧
    List.Chain' (· < ·) (fetch_spots o).2 ∧
    fetch_spots oe = (FetchResult.success [], [1, 1]) := by
  have e0 := h429 0 (by norm_num)
  have e1 := h429 1 (by norm_num)
  have e2 := h429 2 (by norm_num)
  have f0 := hexn 0 (by norm_num)
  have f1 := hexn 1 (by norm_num)
  have f2 := hexn 2 (by norm_num)
  have h1 : fetch_spots o = (FetchResult.raised 429, [1, 2]) := by
    simp [fetch_spots, fetchLoop, e0, e1, e2]
  refine ⟨h1, ?_, ?_⟩
  · rw [h1]
    exact List.chain'_pair.mpr (by norm_num)
  · simp [fetch_spots, fetchLoop, f0, f1, f2]

/-- Witness for `C1_fetch_spots_retry` at concrete attempt sequences. -/
theorem C1_fetch_spots_retry_witness :
    fetch_spots (fun _ => Attempt.httpError 429 : Nat → Attempt Unit)
        = (FetchResult.raised 429, [1, 2]) ∧
    fetch_spots (fun _ => Attempt.exn : Nat → Attempt Unit)
        = (FetchResult.success [], [1, 1]) := by
  have h := C1_fetch_spots_retry (fun _ => Attempt.httpError 429)
    (fun _ => Attempt.exn) (fun _ _ => rfl) (fun _ _ => rfl)
  exact ⟨h.1, h.2.2⟩

/-! ## Theorems for C5 (`bearing_to_sector` octant bucketing) -/

/-- Characterization of Python `round` away from half-integers. -/
theorem pyRound_eq_of_abs_lt (q : ℚ) (n : ℤ) (h : |q - n| < 1 / 2) :
    pyRound q = n := by
  rw [abs_lt] at h
  obtain ⟨h1, h2⟩ := h
  rcases le_or_lt (n : ℚ) q with hq | hq
  · have hf : ⌊q⌋ = n := by
      rw [Int.floor_eq_iff]
      constructor
      · exact hq
      · linarith
    rw [pyRound, hf, if_pos (by linarith : q - (n : ℤ) < 1 / 2)]
  · have hf : ⌊q⌋ = n - 1 := by
      rw [Int.floor_eq_iff]
      constructor
      · push_cast
        linarith
      · push_cast
        linarith

    rw [pyRound, hf, if_neg (by push_cast; linarith : ¬(q - ((n : ℤ) - 1 : ℤ) < 1 / 2)),
      if_pos (by push_cast; linarith : (1 : ℚ) / 2 < q - ((n : ℤ) - 1 : ℤ))]
    omega

/-- C5, counterexample: the bearing 22.5° lies exactly between octant 0
(`"N"`) and octant 1 (`"NE"`); the claim assigns it to the higher-index
neighbor `"NE"`, but Python's `round` rounds half to even, so
`round(22.5 / 45) = round(0.5) = 0` and the code assigns `"N"`. -/
theorem C5_counterexample :
    bearing_to_sector (45 / 2) = "N" ∧ "N" ≠ "NE" := by
  constructor
  · norm_num [bearing_to_sector, pyRound, sectors]
  · decide

/-- C5 (amended): the assigned sector is the octant with index
`round(bearing / 45) mod 8` where `round` is Python's round-half-to-even:
away from ties the bucket is the nearest one, a bearing exactly between
two octants (an odd multiple of 22.5°) goes to the *even*-index neighbor
(banker's rounding), and 360° lands in the same octant as 0°. -/
theorem C5_sector_rounding :
    (∀ (b : ℚ) (n : ℤ), |b / 45 - n| < 1 / 2 →
        bearing_to_sector b = sectors.getD (n % 8).toNat "N") ∧
    (∀ k : ℕ, k < 8 → bearing_to_sector ((2 * k + 1) * (45 / 2)) =
        sectors.getD ((if k % 2 = 0 then k else k + 1) % 8) "N") ∧
    bearing_to_sector 360 = bearing_to_sector 0 := by
  refine ⟨?_, ?_, ?_⟩
  · intro b n h
    rw [bearing_to_sector, pyRound_eq_of_abs_lt _ _ h]
  · intro k hk
    interval_cases k <;> norm_num [bearing_to_sector, pyRound, sectors] <;> rfl
  · norm_num [bearing_to_sector, pyRound, sectors]

/-- Witness for `C5_sector_rounding` at concrete bearings. -/
theorem C5_sector_rounding_witness :
    bearing_to_sector 10 = "N" ∧ bearing_to_sector ((2 * 1 + 1) * (45 / 2)) = "E" := by
  constructor
  · have h := C5_sector_rounding.1 10 0 (by rw [abs_lt]; norm_num)
    simpa [sectors] using h
  · have h := C5_sector_rounding.2.1 1 (by norm_num)
    simpa [sectors] using h

/-! ## Theorems for C10 (`grid_to_latlon` validation behavior) -/

/-- `gridDecode` fails exactly on lists shorter than four characters. -/
theorem gridDecode_eq_none_iff (g : List Char) :
    gridDecode g = none ↔ g.length < 4 := by
  match g with
  | [] => simp [gridDecode]
  | [_] => simp [gridDecode]
  | [_, _] => simp [gridDecode]
  | [_, _, _] => simp [gridDecode]
  | _ :: _ :: _ :: _ :: rest =>
    match rest with
    | [] => simp [gridDecode]
    | [_] => simp [gridDecode]
    | _ :: _ :: _ => simp [gridDecode]

/-- C10: `grid_to_latlon` returns `none` iff the trimmed input is shorter
than four characters; any longer input — including `"ZZ99"`, whose
letters lie outside the Maidenhead `A`–`R` range — decodes to a
coordinate pair, since no character-range validation is performed. -/
theorem C10_grid_to_latlon_validation :
    (∀ s : String, grid_to_latlon s = none ↔
        (pyStrip (s.toList.map Char.toUpper)).length < 4) ∧
    grid_to_latlon "ZZ99" = some (339 / 2, 339) := by
  constructor
  · intro s
    exact gridDecode_eq_none_iff _
  · have hs : pyStrip ("ZZ99".toList.map Char.toUpper) = ['Z', 'Z', '9', '9'] := by decide
    have hZ : 'Z'.toNat = 90 := by decide
    have h9 : '9'.toNat = 57 := by decide
    rw [grid_to_latlon, hs]
    simp only [gridDecode, hZ, h9]
    norm_num

/-! ## Theorems for C9 (grid extraction from the decode message) -/

/-- The grid loop keeps the *last* matching token: folding the
assignment `grid = part.upper()` over the tokens yields the last
grid-shaped token, upper-cased. -/
theorem extractGrid_eq_getLast (parts : List String) :
    extractGrid parts
      = ((parts.filter isGridToken).getLast?).map (pyUpper) := by
  suffices h : ∀ (acc : Option String),
      parts.foldl (fun acc p => if isGridToken p then some (pyUpper p) else acc) acc
        = match (parts.filter isGridToken).getLast? with
          | some g => some (pyUpper g)
          | none => acc by
    rw [extractGrid, h none]
    cases (parts.filter isGridToken).getLast? <;> simp
  induction parts with
  | nil => intro acc; simp
  | cons p rest ih =>
    intro acc
    by_cases hp : isGridToken p
    · rw [List.foldl_cons, if_pos hp, ih, List.filter_cons, if_pos (by simpa using hp)]
      rcases hg : (rest.filter isGridToken).getLast? with _ | g
      · simp [List.getLast?_cons, List.getLastD_eq_getLast?, hg]
      · simp [List.getLast?_cons, List.getLastD_eq_getLast?, hg]
    · rw [List.foldl_cons, if_neg hp, ih, List.filter_cons, if_neg (by simpa using hp)]

/-- C9, counterexample: in the message `CQ K1ABC FN42 EM73` both `FN42`
and `EM73` are grid-style tokens; the first match is `FN42`, but the
stored grid is `EM73` — the extraction loop has no `break`, so the last
match wins, refuting "first match wins". -/
theorem C9_counterexample :
    parse_all_txt_line
        ⟨0, 14074 / 1000, "Rx", "FT8", -5, 1 / 10, 350, ["CQ", "K1ABC", "FN42", "EM73"]⟩
      = some ⟨0, 14074 / 1000, "20m", -5, "K1ABC", some "EM73",
          ["CQ", "K1ABC", "FN42", "EM73"]⟩ ∧
    (some "EM73" : Option String) ≠ some "FN42" := by
  have hc : extractCallsign ["CQ", "K1ABC", "FN42", "EM73"] = some "K1ABC" := by decide
  have hg : extractGrid ["CQ", "K1ABC", "FN42", "EM73"] = some "EM73" := by decide
  have hb : freq_to_band (14074 / 1000) = "20m" := by
    norm_num [freq_to_band, BANDS, List.find?]
  refine ⟨?_, by decide⟩
  simp [parse_all_txt_line, hc, hg, hb]

/-- C9 (amended): for every parsed decode-log line, the grid stored in
the resulting `DecodeRecord` is the *last* grid-style token of the
message (upper-cased), not the first. -/
theorem C9_grid_last_match (r : RawLine) (rec : DecodeRecord)
    (h : parse_all_txt_line r = some rec) :
    rec.grid = ((r.message.filter isGridToken).getLast?).map (pyUpper) := by
  rw [parse_all_txt_line] at h
  by_cases hd : r.direction ≠ "Rx" ∨ r.mode ≠ "FT8"
  · rw [if_pos hd] at h
    exact absurd h (by simp)
  · rw [if_neg hd] at h
    cases hc : extractCallsign r.message with
    | none => rw [hc] at h; simp at h
    | some call =>
      rw [hc] at h
      have hrec : rec = ⟨r.ts, r.freq, freq_to_band r.freq, r.snr, call,
          extractGrid r.message, r.message⟩ := by
        exact (Option.some_injective _ h).symm
      rw [hrec]
      exact extractGrid_eq_getLast r.message

/-- Witness for `C9_grid_last_match` at a concrete parsed line. -/
theorem C9_grid_last_match_witness :
    (some "EM73" : Option String)
      = (((["CQ", "K1ABC", "FN42", "EM73"] : List String).filter isGridToken).getLast?).map
          (pyUpper) := by
  have h := C9_grid_last_match
    ⟨0, 14074 / 1000, "Rx", "FT8", -5, 1 / 10, 350, ["CQ", "K1ABC", "FN42", "EM73"]⟩
    ⟨0, 14074 / 1000, "20m", -5, "K1ABC", some "EM73", ["CQ", "K1ABC", "FN42", "EM73"]⟩
    (by
      have hc : extractCallsign ["CQ", "K1ABC", "FN42", "EM73"] = some "K1ABC" := by decide
      have hg : extractGrid ["CQ", "K1ABC", "FN42", "EM73"] = some "EM73" := by decide
      have hb : freq_to_band (14074 / 1000) = "20m" := by
        norm_num [freq_to_band, BANDS, List.find?]
      simp [parse_all_txt_line, hc, hg, hb])
  simpa using h

/-! ## Theorems for C2 (baseline antenna selection) -/

/-- C2, counterexample: intervals A:[0,10), B:[10,20), A:[30,40) and two
matched records at timestamps 12 and 35, in chronological file order —
at least two intervals, two antennas holding data.  The
earliest-starting interval belongs to antenna `A`, but it contains no
matched record, so `antenna_data` sees `B` first and the baseline is
`B`, not `A`. -/
theorem C2_counterexample :
    baseline_ant
        [⟨"A", 0, 10, none⟩, ⟨"B", 10, 20, none⟩, ⟨"A", 30, 40, none⟩] [12, 35]
      = some "B" ∧
    earliestIntervalAntenna
        [⟨"A", 0, 10, none⟩, ⟨"B", 10, 20, none⟩, ⟨"A", 30, 40, none⟩]
      = some "A" ∧
    (some "B" : Option String) ≠ some "A" :=
  ⟨by decide, by decide, by decide⟩

/-- The head of the `antenna_data` key list is stable once non-empty. -/
theorem antennaOrder_foldl_head (intervals : List IntervalRec) (tss : List Nat) :
    ∀ acc : List String, acc ≠ [] →
      (tss.foldl (antennaStep intervals) acc).head? = acc.head? := by
  induction tss with
  | nil => intro acc _; rfl
  | cons t rest ih =>
    intro acc hacc
    rw [List.foldl_cons]
    have hne : antennaStep intervals acc t ≠ [] := by
      cases h : assignAntenna intervals t with
      | none => simpa [antennaStep, h] using hacc
      | some a =>
        simp only [antennaStep, h]
        split
        · exact hacc
        · simp
    rw [ih _ hne]
    cases h : assignAntenna intervals t with
    | none => simp [antennaStep, h]
    | some a =>
      simp only [antennaStep, h]
      cases acc with
      | nil => exact absurd rfl hacc
      | cons x xs => split <;> rfl

/-- C2 (amended): the baseline antenna is the antenna of the first
matched decode record in ALL.TXT file-scan order — the first key
inserted into `antenna_data` — which need not be the antenna of the
earliest-starting interval. -/
theorem C2_baseline_first_record (intervals : List IntervalRec) (tss : List Nat) :
    baseline_ant intervals tss = (tss.filterMap (assignAntenna intervals)).head? := by
  rw [baseline_ant, antennaOrder]
  induction tss with
  | nil => rfl
  | cons t rest ih =>
    rw [List.foldl_cons]
    cases h : assignAntenna intervals t with
    | none =>
      have hstep : antennaStep intervals [] t = [] := by simp [antennaStep, h]
      rw [hstep, List.filterMap_cons_none h]
      exact ih
    | some a =>
      have hstep : antennaStep intervals [] t = [a] := by simp [antennaStep, h]
      rw [hstep, List.filterMap_cons_some h,
        antennaOrder_foldl_head intervals rest [a] (by simp)]
      rfl

/-! ## Theorems for C3 (final recommendation) -/

/-- Unfolding `maxTotal` over a cons. -/
theorem maxTotal_cons (e : String × Nat × Nat) (l : List (String × Nat × Nat)) :
    maxTotal (e :: l) = max (e.2.1 + e.2.2) (maxTotal l) := rfl

/-- `max(total_wins, key=total_wins.get)` returns the first key attaining
the maximal total, and the best total is that maximum. -/
theorem bestTotal_find? :
    ∀ (rest : List (String × Nat × Nat)) (e : String × Nat × Nat),
    ∃ w, ((e :: rest).find? fun x => x.2.1 + x.2.2 == maxTotal (e :: rest)) = some w ∧
      bestTotal (e :: rest) = some (w.1, w.2.1 + w.2.2) ∧
      w.2.1 + w.2.2 = maxTotal (e :: rest) := by
  intro rest
  induction rest with
  | nil =>
    intro e
    have hM : maxTotal [e] = e.2.1 + e.2.2 := by simp [maxTotal]
    refine ⟨e, ?_, by simp [bestTotal], hM.symm⟩
    exact List.find?_cons_of_pos _ (by simp [hM])
  | cons x xs ih =>
    intro e
    by_cases hex : e.2.1 + e.2.2 < x.2.1 + x.2.2
    · obtain ⟨w, hw, hb, hm⟩ := ih x
      have hxle : x.2.1 + x.2.2 ≤ maxTotal (x :: xs) := by
        rw [maxTotal_cons]
        exact le_max_left _ _
      have hMeq : maxTotal (e :: x :: xs) = maxTotal (x :: xs) := by
        rw [maxTotal_cons]
        exact max_eq_right (le_trans hex.le hxle)
      have hbt : bestTotal (e :: x :: xs) = bestTotal (x :: xs) := by
        simp [bestTotal, hex]
      have hlt2 : e.2.1 + e.2.2 < maxTotal (x :: xs) := lt_of_lt_of_le hex hxle
      refine ⟨w, ?_, by rw [hbt]; exact hb, by rw [hMeq]; exact hm⟩
      simp only [hMeq]
      rw [List.find?_cons_of_neg _ (by simp; omega)]
      exact hw
    · obtain ⟨w, hw, hb, hm⟩ := ih e
      have hMeq : maxTotal (e :: x :: xs) = maxTotal (e :: xs) := by
        rw [maxTotal_cons, maxTotal_cons, maxTotal_cons]
        have htx : x.2.1 + x.2.2 ≤ e.2.1 + e.2.2 := Nat.le_of_not_lt hex
        apply le_antisymm
        · exact max_le (le_max_left _ _)
            (max_le (le_trans htx (le_max_left _ _)) (le_max_right _ _))
        · exact max_le (le_max_left _ _)
            (le_trans (le_max_right _ _) (le_max_right _ _))
      have hbt : bestTotal (e :: x :: xs) = bestTotal (e :: xs) := by
        simp [bestTotal, hex]
      by_cases hE : e.2.1 + e.2.2 = maxTotal (e :: xs)
      · have hwE : w = e := by
          rw [List.find?_cons_of_pos _ (by simp [hE])] at hw
          exact (Option.some_injective _ hw).symm
        refine ⟨e, ?_, ?_, ?_⟩
        · simp only [hMeq]
          exact List.find?_cons_of_pos _ (by simp [hE])
        · rw [hbt, hb, hwE]
        · rw [hMeq, ← hE]
      · have hxne : ¬(x.2.1 + x.2.2 = maxTotal (e :: xs)) := by
          intro hc
          have hge : e.2.1 + e.2.2 ≤ maxTotal (e :: xs) := by
            rw [maxTotal_cons]
            exact le_max_left _ _
          have hle : maxTotal (e :: xs) ≤ e.2.1 + e.2.2 := hc ▸ Nat.le_of_not_lt hex
          exact hE (le_antisymm hge hle)
        refine ⟨w, ?_, by rw [hbt]; exact hb, by rw [hMeq]; exact hm⟩
        simp only [hMeq]
        rw [List.find?_cons_of_neg _ (by simp [hE]), List.find?_cons_of_neg _ (by simp [hxne])]
        rw [List.find?_cons_of_neg _ (by simp [hE])] at hw
        exact hw

/-- C3, counterexample: with win tallies A: 1 RX + 1 TX and B: 2 RX +
0 TX the best totals tie at 2, yet the code recommends `A` (Python's
`max` keeps the first key on ties and only `total == 0` reaches the
"too close to call" branch) instead of reporting an inconclusive
result. -/
theorem C3_counterexample :
    recommendation [("A", 1, 1), ("B", 2, 0)] = some "A" ∧ (1 + 1 : Nat) = 2 + 0 :=
  ⟨by decide, by decide⟩

/-- C3 (amended): an antenna is recommended exactly when the maximal win
total is positive, the recommendation being the earliest-listed antenna
attaining that maximum (ties therefore recommend the first-listed
contender, they are not inconclusive); only an all-zero tally yields the
explicit "too close to call" outcome. -/
theorem C3_recommendation (l : List (String × Nat × Nat)) (hl : l ≠ []) :
    recommendation l = if 0 < maxTotal l then firstMaxAntenna l else none := by
  cases l with
  | nil => exact absurd rfl hl
  | cons e rest =>
    obtain ⟨w, hw, hb, hm⟩ := bestTotal_find? rest e
    rw [recommendation, hb, firstMaxAntenna, hw, hm]
    simp

/-- Witness for `C3_recommendation` at a concrete tally list. -/
theorem C3_recommendation_witness :
    recommendation [("A", 1, 0), ("B", 0, 0)] = some "A" := by
  rw [C3_recommendation _ (by decide)]
  decide

/-! ## Theorems for C7 (reach fallback is TX-only) -/

/-- C7, counterexample: a band where antenna A heard 12 stations and
antenna B heard 9, none in common.  The RX comparison reports "No common
callsigns to compare" and skips the band — no reach fallback — while the
TX verdict for the same numbers does apply the 20% reach fallback
(3 > 0.2·12) and declares the candidate ahead. -/
theorem C7_counterexample :
    rxBandCompare
        [("A", [("A1", [0]), ("A2", [0]), ("A3", [0]), ("A4", [0]), ("A5", [0]),
                ("A6", [0]), ("A7", [0]), ("A8", [0]), ("A9", [0]), ("A10", [0]),
                ("A11", [0]), ("A12", [0])]),
         ("B", [("B1", [0]), ("B2", [0]), ("B3", [0]), ("B4", [0]), ("B5", [0]),
                ("B6", [0]), ("B7", [0]), ("B8", [0]), ("B9", [0])])]
      = RxBandOutcome.noCommon ∧
    txSummaryVerdict none 12 9 (12 - 9) = some TxVerdict.reachAnt := by
  constructor
  · decide
  · norm_num [txSummaryVerdict, max_def, abs_of_nonneg]

/-- C7 (amended): the reach fallback with the proportional 20% threshold
exists only on the TX side.  The RX per-band comparison with an empty
common-station set produces no comparison at all; the TX verdict with no
common stations declares a winner exactly when the absolute reach
difference exceeds 20% of the larger reach count. -/
theorem C7_reach_fallback :
    (∀ data : List (String × List (String × List ℤ)),
        commonCalls data = [] → rxBandCompare data = RxBandOutcome.noCommon) ∧
    (∀ r b : Nat, txSummaryVerdict none r b ((r : ℤ) - b)
        = if r = 0 ∧ b = 0 then none
          else if ((max r b : ℕ) : ℤ) < 5 * |(r : ℤ) - b| then
            (if b < r then some TxVerdict.reachAnt else some TxVerdict.reachBase)
          else some TxVerdict.reachSimilar) := by
  constructor
  · intro data h
    simp [rxBandCompare, h]
  · intro r b
    by_cases h0 : r = 0 ∧ b = 0
    · obtain ⟨hr, hb⟩ := h0
      subst hr
      subst hb
      norm_num [txSummaryVerdict]
    · have hor : 0 < r ∨ 0 < b := by omega
      have hm1 : (1 : ℚ) ≤ max (r : ℚ) (b : ℚ) := by
        rcases hor with h | h
        · exact le_max_of_le_left (by exact_mod_cast h)
        · exact le_max_of_le_right (by exact_mod_cast h)
      have hmaxeq : max (max (r : ℚ) (b : ℚ)) 1 = ((max r b : ℕ) : ℚ) := by
        rw [max_eq_left hm1, Nat.cast_max]
      have hmpos : (0 : ℚ) < ((max r b : ℕ) : ℚ) := by
        have h2 : 0 < max r b := by omega
        exact_mod_cast h2
      have habs : |(((r : ℤ) - b : ℤ) : ℚ)| = ((|(r : ℤ) - b| : ℤ) : ℚ) :=
        Int.cast_abs.symm
      have hthr : ((1 : ℚ) / 5 < |(((r : ℤ) - b : ℤ) : ℚ)| / max (max (r : ℚ) (b : ℚ)) 1)
          ↔ (((max r b : ℕ) : ℤ) < 5 * |(r : ℤ) - b|) := by
        rw [hmaxeq, lt_div_iff₀ hmpos, habs,
          show (1 : ℚ) / 5 * ((max r b : ℕ) : ℚ) = ((max r b : ℕ) : ℚ) / 5 by ring,
          div_lt_iff₀ (by norm_num : (0 : ℚ) < 5)]
        constructor
        · intro h
          exact_mod_cast (by linarith :
            ((max r b : ℕ) : ℚ) < 5 * ((|(r : ℤ) - b| : ℤ) : ℚ))
        · intro h
          have h3 : ((max r b : ℕ) : ℚ) < 5 * ((|(r : ℤ) - b| : ℤ) : ℚ) := by
            exact_mod_cast h
          linarith
      simp only [txSummaryVerdict]
      rw [if_pos hor, if_neg h0]
      by_cases hlt : ((max r b : ℕ) : ℤ) < 5 * |(r : ℤ) - b|
      · have hd0 : (r : ℤ) - b ≠ 0 := by
          intro hd
          rw [hd] at hlt
          simp at hlt
          omega
        by_cases hbr : b < r
        · have hdpos : (0 : ℤ) < (r : ℤ) - b := by omega
          rw [if_pos ⟨hdpos, hthr.mpr hlt⟩, if_pos hlt, if_pos hbr]
        · have hdneg : (r : ℤ) - b < 0 := by omega
          rw [if_neg (fun hc => by omega : ¬((0 : ℤ) < (r : ℤ) - b ∧
              (1 : ℚ) / 5 < |(((r : ℤ) - b : ℤ) : ℚ)| / max (max (r : ℚ) (b : ℚ)) 1)),
            if_pos ⟨hdneg, hthr.mpr hlt⟩, if_pos hlt, if_neg hbr]
      · rw [if_neg (fun hc => hlt (hthr.mp hc.2)), if_neg (fun hc => hlt (hthr.mp hc.2)),
          if_neg hlt]

/-- Witness for `C7_reach_fallback` at a concrete band with disjoint
callsign sets. -/
theorem C7_reach_fallback_witness :
    rxBandCompare [("A", [("X", [1])]), ("B", [("Y", [2])])] = RxBandOutcome.noCommon :=
  C7_reach_fallback.1 _ (by decide)

/-! ## Theorems for C8 (replay determinism) -/

/-- C8: deriving the session status and the interval set is a pure
function of the log contents (and of the wall-clock instant, passed
explicitly): two derivations over identical log contents at the same
instant yield identical `SessionStatus` values and identical interval
lists — no hidden state influences the replay. -/
theorem C8_replay_deterministic (l1 l2 : List Event) (now : Nat) (h : l1 = l2) :
    get_session_status l1 now = get_session_status l2 now ∧
    get_session_intervals l1 now = get_session_intervals l2 now := by
  subst h
  exact ⟨rfl, rfl⟩

/-- Witness for `C8_replay_deterministic` at a concrete log. -/
theorem C8_replay_deterministic_witness :
    get_session_status [Event.start 0 none none, Event.use 5 "A" none "dipole"] 10
      = get_session_status [Event.start 0 none none, Event.use 5 "A" none "dipole"] 10 ∧
    get_session_intervals [Event.start 0 none none, Event.use 5 "A" none "dipole"] 10
      = get_session_intervals [Event.start 0 none none, Event.use 5 "A" none "dipole"] 10 :=
  C8_replay_deterministic _ _ 10 rfl

/-! ## Theorems for C6 (invalid transitions are rejected before append) -/

/-- `cmd_stop`'s start/stop-only loop computes the same active flag as
the full replay (pause/resume do not touch it). -/
theorem stopActive_eq_derived (log : List Event) :
    stopActive log = (derivedState log).1 := by
  rw [stopActive, derivedState]
  suffices h : ∀ st : Bool × Bool,
      log.foldl stopStep st.1 = (log.foldl dsStep st).1 from h (false, false)
  induction log with
  | nil => intro st; rfl
  | cons e rest ih =>
    intro st
    rw [List.foldl_cons, List.foldl_cons]
    cases e with
    | start t n so => exact ih (true, false)
    | stop t => exact ih (false, st.2)
    | pause t => exact ih (st.1, true)
    | resume t => exact ih (st.1, false)
    | use t a b d => exact ih st
    | note t x => exact ih st

/-- Appending an event that is not a `stop` preserves the blocked status
of `cmd_start`'s check. -/
theorem startBlocked_append_nonstop (l : List Event) (e : Event)
    (hstop : e.isStop = false) (h : startBlocked l = true) :
    startBlocked (l ++ [e]) = true := by
  rw [startBlocked, List.any_eq_true] at h ⊢
  obtain ⟨g, hg, hp⟩ := h
  refine ⟨g, List.mem_append_left _ hg, ?_⟩
  simp only [Bool.and_eq_true, Bool.not_eq_true', List.any_eq_false] at hp ⊢
  obtain ⟨hgs, hnostop⟩ := hp
  refine ⟨hgs, ?_⟩
  intro f hf
  rcases List.mem_append.mp hf with hfl | hfe
  · exact hnostop f hfl
  · rw [List.mem_singleton.mp hfe]
    simp [hstop]

/-- On a log with non-decreasing timestamps, a derived-active session
makes `cmd_start`'s timestamp-based check reject. -/
theorem active_startBlocked :
    ∀ log : List Event, (log.map Event.ts).Sorted (· ≤ ·) →
      (derivedState log).1 = true → startBlocked log = true := by
  intro log
  induction log using List.reverseRecOn with
  | nil => intro _ h; simp [derivedState] at h
  | append_singleton l e ih =>
    intro hsort hact
    rw [List.map_append] at hsort
    have hp : (List.map Event.ts l ++ List.map Event.ts [e]).Pairwise (· ≤ ·) := hsort
    rw [List.pairwise_append] at hp
    obtain ⟨hsl', _, hcross⟩ := hp
    have hsl : (List.map Event.ts l).Sorted (· ≤ ·) := hsl'
    have hact' : Event.isStop e = false → Event.isStart e = false →
        (derivedState l).1 = true := by
      intro h1 h2
      rw [derivedState, List.foldl_append, List.foldl_cons, List.foldl_nil] at hact
      cases e with
      | start t n so => simp [Event.isStart] at h2
      | stop t => simp [Event.isStop] at h1
      | pause t => exact hact
      | resume t => exact hact
      | use t a b d => exact hact
      | note t x => exact hact
    cases e with
    | start t n so =>
      apply List.any_eq_true.mpr
      refine ⟨Event.start t n so, by simp, ?_⟩
      simp only [Bool.and_eq_true, Bool.not_eq_true', List.any_eq_false]
      refine ⟨rfl, ?_⟩
      intro f hf
      rcases List.mem_append.mp hf with hfl | hfe
      · have hle : f.ts ≤ t := by
          have := hcross f.ts (List.mem_map_of_mem _ hfl)
            ((Event.start t n so).ts) (by simp)
          simpa [Event.ts] using this
        cases hfs : f.isStop with
        | false => simp [hfs]
        | true =>
          simp only [hfs, Bool.true_and, decide_eq_false_iff_not, Nat.not_lt,
            true_and, decide_eq_true_eq]
          exact hle
      · rw [List.mem_singleton.mp hfe]
        simp [Event.isStop]
    | stop t =>
      rw [derivedState, List.foldl_append, List.foldl_cons, List.foldl_nil] at hact
      simp [dsStep] at hact
    | pause t =>
      exact startBlocked_append_nonstop _ _ rfl (ih hsl (hact' rfl rfl))
    | resume t =>
      exact startBlocked_append_nonstop _ _ rfl (ih hsl (hact' rfl rfl))
    | use t a b d =>
      exact startBlocked_append_nonstop _ _ rfl (ih hsl (hact' rfl rfl))
    | note t x =>
      exact startBlocked_append_nonstop _ _ rfl (ih hsl (hact' rfl rfl))

/-- C6: every invocation of `start`, `stop`, `pause` or `resume` against
a derived session state that forbids the transition (start while Running
or Paused; stop, pause or resume while Inactive; pause while already
Paused; resume while not Paused) terminates with a user-facing error
before appending, leaving the persisted event log unchanged.  The
timestamp hypothesis reflects that the log was written in wall-clock
order (`cmd_start` compares ISO timestamps, the other commands replay
positionally). -/
theorem C6_invalid_transition_rejected (c : Cmd) (log : List Event) (now : Nat)
    (hsort : (log.map Event.ts).Sorted (· ≤ ·))
    (hforbid : forbids c log = true) :
    runCmd c log now = none := by
  cases c with
  | start =>
    have hb := active_startBlocked log hsort (by simpa [forbids] using hforbid)
    simp [runCmd, hb]
  | stop =>
    have h1 : (derivedState log).1 = false := by simpa [forbids] using hforbid
    have h2 : stopActive log = false := by rw [stopActive_eq_derived, h1]
    simp [runCmd, h2]
  | pause =>
    simp only [forbids, Bool.or_eq_true, Bool.not_eq_true'] at hforbid
    simp only [runCmd]
    rcases hforbid with h | h
    · simp [h]
    · by_cases h1 : (derivedState log).1
      · simp [h1, h]
      · simp [h1]
  | resume =>
    simp only [forbids, Bool.or_eq_true, Bool.not_eq_true'] at hforbid
    simp only [runCmd]
    rcases hforbid with h | h
    · simp [h]
    · by_cases h1 : (derivedState log).1
      · simp [h1, h]
      · simp [h1]

/-- Witness for `C6_invalid_transition_rejected`: `pause` while already
paused is rejected and the log is unchanged. -/
theorem C6_invalid_transition_rejected_witness :
    runCmd Cmd.pause [Event.start 0 none none, Event.pause 1] 5 = none :=
  C6_invalid_transition_rejected Cmd.pause _ 5 (by decide) (by decide)

/-! ## Theorems for C4 (derived intervals are ordered and non-overlapping) -/

/-- Closing the open interval preserves the end-before-start chain,
provided the last closed end does not exceed the open start. -/
theorem closeOpen_chain (s : GsiState) (t : Nat)
    (hch : List.Chain' (fun i j => i.endTime ≤ j.startTime) s.intervals)
    (hlast : s.currentAntenna.isSome → ∀ iv cs, s.intervals.getLast? = some iv →
      s.currentStart = some cs → iv.endTime ≤ cs) :
    List.Chain' (fun i j => i.endTime ≤ j.startTime) (closeOpen s t) := by
  cases ha : s.currentAntenna with
  | none => simpa [closeOpen, ha] using hch
  | some a =>
    cases hc : s.currentStart with
    | none => simpa [closeOpen, ha, hc] using hch
    | some cs =>
      simp only [closeOpen, ha, hc]
      split
      · refine List.chain'_append.mpr ⟨hch, List.chain'_singleton _, ?_⟩
        intro x hx y hy
        rw [Option.mem_def] at hx hy
        simp only [List.head?_cons, Option.some.injEq] at hy
        subst hy
        exact hlast (by rw [ha]; rfl) x cs hx hc
      · exact hch

/-- The last closed end after closing at `t` is bounded by any `u` that
bounds both the old last end and `t`. -/
theorem closeOpen_last_le (s : GsiState) (t u : Nat)
    (hold : ∀ iv, s.intervals.getLast? = some iv → iv.endTime ≤ u)
    (htu : t ≤ u) :
    ∀ iv, (closeOpen s t).getLast? = some iv → iv.endTime ≤ u := by
  intro iv hiv
  cases ha : s.currentAntenna with
  | none =>
    simp only [closeOpen, ha] at hiv
    exact hold iv hiv
  | some a =>
    cases hc : s.currentStart with
    | none =>
      simp only [closeOpen, ha, hc] at hiv
      exact hold iv hiv
    | some cs =>
      simp only [closeOpen, ha, hc] at hiv
      split at hiv
      · simp only [List.getLast?_concat, Option.some.injEq] at hiv
        subst hiv
        exact htu
      · exact hold iv hiv

/-- Replay invariant of `get_session_intervals`: over a log with
non-decreasing timestamps, the accumulated intervals form an
end-before-start chain, and the last closed end does not exceed the
current open start. -/
theorem gsi_invariant :
    ∀ (log : List Event) (s : GsiState),
      (log.map Event.ts).Sorted (· ≤ ·) →
      List.Chain' (fun i j => i.endTime ≤ j.startTime) s.intervals →
      (∀ iv, s.intervals.getLast? = some iv → ∀ t ∈ log.map Event.ts, iv.endTime ≤ t) →
      (∀ cs, s.currentStart = some cs → ∀ t ∈ log.map Event.ts, cs ≤ t) →
      (s.currentAntenna.isSome → ∀ iv cs, s.intervals.getLast? = some iv →
        s.currentStart = some cs → iv.endTime ≤ cs) →
      List.Chain' (fun i j => i.endTime ≤ j.startTime) (log.foldl gsiStep s).intervals ∧
      ((log.foldl gsiStep s).currentAntenna.isSome →
        ∀ iv cs, (log.foldl gsiStep s).intervals.getLast? = some iv →
          (log.foldl gsiStep s).currentStart = some cs → iv.endTime ≤ cs) := by
  intro log
  induction log with
  | nil =>
    intro s _ hch _ _ hlast
    exact ⟨hch, hlast⟩
  | cons e rest ih =>
    intro s hsort hch hlastb hcsb hlast
    rw [List.map_cons, List.sorted_cons] at hsort
    obtain ⟨hhead, hrest⟩ := hsort
    rw [List.foldl_cons]
    cases e with
    | start t n so =>
      refine ih _ hrest hch ?_ ?_ ?_
      · intro iv hiv t' ht'
        exact hlastb iv hiv t' (List.mem_cons_of_mem _ ht')
      · intro cs hcs t' ht'
        exact hcsb cs hcs t' (List.mem_cons_of_mem _ ht')
      · intro hsome
        simp [gsiStep] at hsome
    | note t x =>
      refine ih _ hrest hch ?_ ?_ hlast
      · intro iv hiv t' ht'
        exact hlastb iv hiv t' (List.mem_cons_of_mem _ ht')
      · intro cs hcs t' ht'
        exact hcsb cs hcs t' (List.mem_cons_of_mem _ ht')
    | resume t =>
      refine ih _ hrest hch ?_ ?_ hlast
      · intro iv hiv t' ht'
        exact hlastb iv hiv t' (List.mem_cons_of_mem _ ht')
      · intro cs hcs t' ht'
        exact hcsb cs hcs t' (List.mem_cons_of_mem _ ht')
    | stop t =>
      refine ih _ hrest (closeOpen_chain s t hch hlast) ?_ ?_ ?_
      · intro iv hiv t' ht'
        exact closeOpen_last_le s t t'
          (fun iv2 hiv2 => hlastb iv2 hiv2 t' (List.mem_cons_of_mem _ ht'))
          (hhead t' ht') iv hiv
      · intro cs hcs t' ht'
        exact hcsb cs hcs t' (List.mem_cons_of_mem _ ht')
      · intro hsome
        simp [gsiStep] at hsome
    | pause t =>
      refine ih _ hrest (closeOpen_chain s t hch hlast) ?_ ?_ ?_
      · intro iv hiv t' ht'
        exact closeOpen_last_le s t t'
          (fun iv2 hiv2 => hlastb iv2 hiv2 t' (List.mem_cons_of_mem _ ht'))
          (hhead t' ht') iv hiv
      · intro cs hcs t' ht'
        exact hcsb cs hcs t' (List.mem_cons_of_mem _ ht')
      · intro hsome
        simp [gsiStep] at hsome
    | use t a b d =>
      refine ih _ hrest (closeOpen_chain s t hch hlast) ?_ ?_ ?_
      · intro iv hiv t' ht'
        exact closeOpen_last_le s t t'
          (fun iv2 hiv2 => hlastb iv2 hiv2 t' (List.mem_cons_of_mem _ ht'))
          (hhead t' ht') iv hiv
      · intro cs hcs t' ht'
        obtain rfl := Option.some.inj hcs
        exact hhead t' ht'
      · intro _ iv cs hiv hcs
        obtain rfl := Option.some.inj hcs
        exact closeOpen_last_le s t t
          (fun iv2 hiv2 => hlastb iv2 hiv2 t
            (List.mem_map_of_mem _ (List.mem_cons_self _ _)))
          le_rfl iv hiv

/-- C4: for every event log with non-decreasing timestamps, the derived
interval list is an end-before-start chain (chronologically ordered and
pairwise non-overlapping), and when the session is still running with an
antenna in use the final interval ends at `now`. -/
theorem C4_intervals_ordered (log : List Event) (now : Nat)
    (hsort : (log.map Event.ts).Sorted (· ≤ ·)) :
    List.Chain' (fun i j => i.endTime ≤ j.startTime) (get_session_intervals log now) ∧
    (sessionOpen log = true →
      (get_session_intervals log now).getLast?.map IntervalRec.endTime = some now) := by
  obtain ⟨hch, hlast⟩ := gsi_invariant log gsiInit hsort (by simp [gsiInit])
    (by intro iv hiv; simp [gsiInit] at hiv) (by intro cs hcs; simp [gsiInit] at hcs)
    (by intro h; simp [gsiInit] at h)
  constructor
  · rw [get_session_intervals]
    cases ha : (log.foldl gsiStep gsiInit).currentAntenna with
    | none => simpa [gsiFinal, ha] using hch
    | some a =>
      cases hc : (log.foldl gsiStep gsiInit).currentStart with
      | none => simpa [gsiFinal, ha, hc] using hch
      | some cs =>
        cases hss : (log.foldl gsiStep gsiInit).sessionStart with
        | none => simpa [gsiFinal, ha, hc, hss] using hch
        | some t0 =>
          simp only [gsiFinal, ha, hc, hss]
          split
          · refine List.chain'_append.mpr ⟨hch, List.chain'_singleton _, ?_⟩
            intro x hx y hy
            rw [Option.mem_def] at hx hy
            simp only [List.head?_cons, Option.some.injEq] at hy
            subst hy
            exact hlast (by rw [ha]; rfl) x cs hx hc
          · exact hch
  · intro hopen
    rw [get_session_intervals]
    cases ha : (log.foldl gsiStep gsiInit).currentAntenna with
    | none => simp [sessionOpen, ha] at hopen
    | some a =>
      cases hc : (log.foldl gsiStep gsiInit).currentStart with
      | none => simp [sessionOpen, ha, hc] at hopen
      | some cs =>
        cases hss : (log.foldl gsiStep gsiInit).sessionStart with
        | none => simp [sessionOpen, ha, hc, hss] at hopen
        | some t0 =>
          have hne : a ≠ "" := by
            simpa [sessionOpen, ha, hc, hss] using hopen
          simp only [gsiFinal, ha, hc, hss]
          rw [if_pos hne, List.getLast?_concat]
          rfl

/-- Witness for `C4_intervals_ordered` at a concrete running session. -/
theorem C4_intervals_ordered_witness :
    List.Chain' (fun i j => i.endTime ≤ j.startTime)
      (get_session_intervals
        [Event.start 0 none none, Event.use 2 "A" none "dipole",
         Event.use 7 "B" none "loop"] 11) ∧
    (get_session_intervals
        [Event.start 0 none none, Event.use 2 "A" none "dipole",
         Event.use 7 "B" none "loop"] 11).getLast?.map IntervalRec.endTime = some 11 := by
  have h := C4_intervals_ordered
    [Event.start 0 none none, Event.use 2 "A" none "dipole",
     Event.use 7 "B" none "loop"] 11 (by decide)
  exact ⟨h.1, h.2 (by decide)⟩

end AntennaProof
